import Mathlib

/-!
Shallow embedding of the KnowledgeManager MVP core: the in-memory relational
store (`server/storage.ts`, class `MemStorage`) over the tables declared in
`shared/schema.ts`, and the semantic-network graph assembly of the
`SemanticNetwork` page component (link deduplication, document/link filtering,
node emission).

Modelling conventions:
* A JS `Map<number, Entity>` is modelled as a `List Entity` in insertion
  order (`Array.from(map.values())` iterates in insertion order); inserting a
  fresh key appends at the end, `map.delete(id)` removes the entry with that
  id.
* JS strings use `toLowerCase` for case-insensitive comparison; we model it
  as per-character ASCII lowercasing over the string's character list (the
  names involved are ASCII; `String.toLower` itself does the same per-char
  mapping but does not reduce in the kernel).
* A nullable / possibly-absent numeric field (`strength`) is an `Option Int`;
  an absent (`undefined`) strength compares `false` under JS `>` / `>=`
  (NaN semantics), and `x || 0` yields `0` for an absent or zero value.
* Timestamps (`Date`) are abstract ticks (`Nat`) supplied by the caller.
-/

namespace KM

/-- ASCII lowercasing of one character. -/
def lowerChar (c : Char) : Char :=
  if c.toNat ≥ 65 && c.toNat ≤ 90 then Char.ofNat (c.toNat + 32) else c

/-- JS `s.toLowerCase()`. -/
def lower (s : String) : String := ⟨s.data.map lowerChar⟩

/-- Occurrence of a (nonempty) character sequence inside another. -/
def containsSub (s sub : List Char) : Bool :=
  match s with
  | [] => false
  | c :: rest => sub.isPrefixOf (c :: rest) || containsSub rest sub

/-- JS `s.includes(sub)`: substring containment; the empty string is
contained in every string. -/
def strIncludes (s sub : String) : Bool :=
  if sub = "" then true else containsSub s.data sub.data

/-- JS `s.substring(0, n)`: the first `n` characters. -/
def strTake (s : String) (n : Nat) : String := ⟨s.data.take n⟩

/-- JS `a > n` where `a : number | undefined`: an absent value compares
`false` (NaN semantics). -/
def jsGt (a : Option Int) (n : Int) : Bool :=
  match a with
  | some x => decide (x > n)
  | none => false

/-- JS `a >= n` where `a : number | undefined`: an absent value compares
`false` (NaN semantics). -/
def jsGe (a : Option Int) (n : Int) : Bool :=
  match a with
  | some x => decide (x ≥ n)
  | none => false

/-- JS `a || 0` on a possibly-absent number: absent and `0` are falsy. -/
def orZero (a : Option Int) : Int :=
  match a with
  | some x => x
  | none => 0

/-- JS `o || dflt` on a possibly-absent string: absent and `""` are falsy. -/
def jsOrStr (o : Option String) (dflt : String) : String :=
  match o with
  | some c => if c = "" then dflt else c
  | none => dflt

/-! ## Entity rows (`shared/schema.ts`, select types) -/

/-- `users` table row. -/
structure User where
  id : Nat
  username : String
  email : String
  password : String
  deriving Repr, DecidableEq

/-- `documents` table row. -/
structure Document where
  id : Nat
  userId : Nat
  title : String
  filename : String
  fileType : String
  category : Option String
  summary : Option String
  content : Option String
  createdAt : Nat
  updatedAt : Nat
  deriving Repr, DecidableEq

/-- `tags` table row. -/
structure Tag where
  id : Nat
  name : String
  deriving Repr, DecidableEq

/-- `document_tags` join table row. -/
structure DocumentTag where
  id : Nat
  documentId : Nat
  tagId : Nat
  deriving Repr, DecidableEq

/-- `semantic_links` table row.  `strength` is declared
`integer("strength").default(1)` (nullable in the select type); in the
in-memory store it holds exactly what the insert supplied, so it may be
absent. -/
structure SemanticLink where
  id : Nat
  sourceDocumentId : Nat
  targetDocumentId : Nat
  linkType : String
  strength : Option Int
  deriving Repr, DecidableEq

/-- `ontologies` table row; `structure` is an opaque JSON value the store
never inspects, modelled as an opaque string. -/
structure Ontology where
  id : Nat
  userId : Nat
  name : String
  structureJson : String
  createdAt : Nat
  updatedAt : Nat
  deriving Repr, DecidableEq

/-- `priorities` table row. -/
structure Priority where
  id : Nat
  userId : Nat
  title : String
  description : Option String
  dueDate : Option Nat
  completed : Option Bool
  createdAt : Nat
  deriving Repr, DecidableEq

/-! ## Insert payloads (`InsertXxx` zod schemas) -/

/-- `InsertUser` payload. -/
structure InsertUser where
  username : String
  email : String
  password : String
  deriving Repr, DecidableEq

/-- `InsertSemanticLink` payload; `strength` is optional and nullable, and is
NOT defaulted by the zod schema. -/
structure InsertSemanticLink where
  sourceDocumentId : Nat
  targetDocumentId : Nat
  linkType : String
  strength : Option Int
  deriving Repr, DecidableEq

/-! ## The in-memory store (`MemStorage`) -/

/-- `MemStorage.currentIds`: per-kind id counters, all starting at 1. -/
structure CurrentIds where
  users : Nat
  documents : Nat
  tags : Nat
  documentTags : Nat
  semanticLinks : Nat
  ontologies : Nat
  priorities : Nat
  deriving Repr, DecidableEq

/-- The `MemStorage` state: one keyed collection per entity kind, plus the id
counters. -/
structure Store where
  users : List User
  documents : List Document
  tags : List Tag
  documentTags : List DocumentTag
  semanticLinks : List SemanticLink
  ontologies : List Ontology
  priorities : List Priority
  currentIds : CurrentIds
  deriving Repr, DecidableEq

/-- The state of a freshly constructed `MemStorage`. -/
def emptyStore : Store :=
  { users := [], documents := [], tags := [], documentTags := []
  , semanticLinks := [], ontologies := [], priorities := []
  , currentIds :=
    { users := 1, documents := 1, tags := 1, documentTags := 1
    , semanticLinks := 1, ontologies := 1, priorities := 1 } }

/-- `MemStorage.getUser`. -/
def getUser (s : Store) (id : Nat) : Option User :=
  s.users.find? (fun u => u.id == id)

/-- `MemStorage.getUserByUsername`: case-insensitive scan. -/
def getUserByUsername (s : Store) (username : String) : Option User :=
  s.users.find? (fun u => lower u.username == lower username)

/-- `MemStorage.getUserByEmail`: case-insensitive scan. -/
def getUserByEmail (s : Store) (email : String) : Option User :=
  s.users.find? (fun u => lower u.email == lower email)

/-- `MemStorage.createUser`: allocates the next user id and inserts; performs
no uniqueness check of its own. -/
def createUser (s : Store) (ins : InsertUser) : User × Store :=
  let id := s.currentIds.users
  let u : User := { id := id, username := ins.username, email := ins.email
                  , password := ins.password }
  (u,
   { s with
     users := s.users ++ [u],
     currentIds := { s.currentIds with users := id + 1 } })

/-- `MemStorage.getDocument`. -/
def getDocument (s : Store) (id : Nat) : Option Document :=
  s.documents.find? (fun d => d.id == id)

/-- A single `map.delete(e.id)` step inside the cascade loops of
`deleteDocument`: removes the entry with the given id. -/
def deleteById {α : Type} (getId : α → Nat) (l : List α) (id : Nat) : List α :=
  l.filter (fun e => getId e ≠ id)

/-- `MemStorage.deleteDocument`: collects the DocumentTag rows whose
`documentId` matches and deletes each by its id, collects the SemanticLink
rows whose source or target matches and deletes each by its id, then deletes
the Document row itself, returning whether it existed.  The cascade loops run
unconditionally, before the existence of the document is consulted. -/
def deleteDocument (s : Store) (id : Nat) : Bool × Store :=
  let dts := s.documentTags.filter (fun dt => dt.documentId == id)
  let documentTags1 :=
    dts.foldl (fun acc dt => deleteById DocumentTag.id acc dt.id) s.documentTags
  let links := s.semanticLinks.filter
    (fun l => l.sourceDocumentId == id || l.targetDocumentId == id)
  let semanticLinks1 :=
    links.foldl (fun acc l => deleteById SemanticLink.id acc l.id) s.semanticLinks
  let existed := s.documents.any (fun d => d.id == id)
  (existed,
   { s with
     documents := deleteById Document.id s.documents id,
     documentTags := documentTags1,
     semanticLinks := semanticLinks1 })

/-- `MemStorage.createTag`: allocates the next tag id and inserts. -/
def createTag (s : Store) (name : String) : Tag × Store :=
  let id := s.currentIds.tags
  let t : Tag := { id := id, name := name }
  (t,
   { s with
     tags := s.tags ++ [t],
     currentIds := { s.currentIds with tags := id + 1 } })

/-- `MemStorage.getOrCreateTag`: case-insensitive scan of existing tags; on a
hit returns the existing tag unchanged, on a miss creates a new one. -/
def getOrCreateTag (s : Store) (name : String) : Tag × Store :=
  match s.tags.find? (fun t => lower t.name == lower name) with
  | some t => (t, s)
  | none => createTag s name

/-- `MemStorage.addTagToDocument`: returns the existing join row if present,
else allocates a new one; performs no existence check on either endpoint. -/
def addTagToDocument (s : Store) (documentId tagId : Nat) : DocumentTag × Store :=
  match s.documentTags.find?
      (fun dt => dt.documentId == documentId && dt.tagId == tagId) with
  | some dt => (dt, s)
  | none =>
    let id := s.currentIds.documentTags
    let dt : DocumentTag := { id := id, documentId := documentId, tagId := tagId }
    (dt,
     { s with
       documentTags := s.documentTags ++ [dt],
       currentIds := { s.currentIds with documentTags := id + 1 } })

/-- `MemStorage.getDocumentLinks`: all links touching the document. -/
def getDocumentLinks (s : Store) (documentId : Nat) : List SemanticLink :=
  s.semanticLinks.filter
    (fun l => l.sourceDocumentId == documentId || l.targetDocumentId == documentId)

/-- `MemStorage.createSemanticLink`: allocates the next link id and stores
`{ ...insertLink, id }` — the `strength` field is carried over verbatim (an
absent strength stays absent; no default is applied and no endpoint or
positivity check is performed). -/
def createSemanticLink (s : Store) (ins : InsertSemanticLink) :
    SemanticLink × Store :=
  let id := s.currentIds.semanticLinks
  let link : SemanticLink :=
    { id := id, sourceDocumentId := ins.sourceDocumentId
    , targetDocumentId := ins.targetDocumentId, linkType := ins.linkType
    , strength := ins.strength }
  (link,
   { s with
     semanticLinks := s.semanticLinks ++ [link],
     currentIds := { s.currentIds with semanticLinks := id + 1 } })

/-! ## Semantic network page (`SemanticNetwork` component)

The page fetches every document's links (so a link can appear once from each
endpoint), deduplicates them per unordered document pair keeping the
strongest, then filters documents and links and assembles the graph data. -/

/-- The unordered pair key
`` `${Math.min(src, tgt)}-${Math.max(src, tgt)}` `` of a link.  The string
key is injective on `(min, max)` pairs of naturals, so we model it by the
pair itself. -/
def pairKey (l : SemanticLink) : Nat × Nat :=
  (min l.sourceDocumentId l.targetDocumentId,
   max l.sourceDocumentId l.targetDocumentId)

/-- JS `Map.get`: the value stored at a key (keys are unique, first match). -/
def mapGet (m : List ((Nat × Nat) × SemanticLink)) (k : Nat × Nat) :
    Option SemanticLink :=
  match m with
  | [] => none
  | (k1, v) :: rest => if k1 = k then some v else mapGet rest k

/-- JS `Map.set`: replaces the value at an existing key in place, else
appends the new entry at the end (insertion order is preserved). -/
def mapSet (m : List ((Nat × Nat) × SemanticLink)) (k : Nat × Nat)
    (v : SemanticLink) : List ((Nat × Nat) × SemanticLink) :=
  match m with
  | [] => [(k, v)]
  | (k1, v1) :: rest =>
    if k1 = k then (k, v) :: rest else (k1, v1) :: mapSet rest k v

/-- One iteration of the dedup loop of the `semantic-links` `queryFn`:
`if (!linkMap.has(key) || link.strength > (linkMap.get(key)?.strength || 0))
linkMap.set(key, link)`. -/
def dedupStep (m : List ((Nat × Nat) × SemanticLink)) (l : SemanticLink) :
    List ((Nat × Nat) × SemanticLink) :=
  match mapGet m (pairKey l) with
  | none => mapSet m (pairKey l) l
  | some b => if jsGt l.strength (orZero b.strength) then mapSet m (pairKey l) l else m

/-- The dedup pass of the `semantic-links` `queryFn`: fold the collected
links through `dedupStep` and return `Array.from(linkMap.values())`. -/
def dedupLinks (links : List SemanticLink) : List SemanticLink :=
  (links.foldl dedupStep []).map Prod.snd

/-- The page's filter state (`searchQuery`, `selectedCategory`,
`linkTypeFilter`, `minStrength`, `maxNodes`). -/
structure GraphFilters where
  searchQuery : String
  selectedCategory : String
  linkTypeFilter : List String
  minStrength : Int
  maxNodes : Nat
  deriving Repr, DecidableEq

/-- `matchesSearch` in `filteredDocuments`: an empty query is falsy and
matches everything; otherwise case-insensitive substring match on the
title. -/
def matchesSearch (q : String) (d : Document) : Bool :=
  if q = "" then true else strIncludes (lower d.title) (lower q)

/-- `matchesCategory` in `filteredDocuments`: `"all"` matches everything;
otherwise strict equality with the document category (a `null` category
matches nothing). -/
def matchesCategory (c : String) (d : Document) : Bool :=
  c = "all" || d.category == some c

/-- `filteredDocuments`: documents matching search and category. -/
def filteredDocuments (docs : List Document) (f : GraphFilters) :
    List Document :=
  docs.filter (fun d => matchesSearch f.searchQuery d &&
    matchesCategory f.selectedCategory d)

/-- `filteredLinks`: links whose two endpoints are both filtered documents,
whose type passes the (empty = pass-all) link-type filter, and whose
strength meets the threshold. -/
def filteredLinks (docs : List Document) (allLinks : List SemanticLink)
    (f : GraphFilters) : List SemanticLink :=
  allLinks.filter (fun l =>
    ((filteredDocuments docs f).find? (fun d => d.id == l.sourceDocumentId)).isSome &&
    ((filteredDocuments docs f).find? (fun d => d.id == l.targetDocumentId)).isSome &&
    (f.linkTypeFilter.isEmpty || f.linkTypeFilter.contains l.linkType) &&
    jsGe l.strength f.minStrength)

/-- `limitedDocuments = filteredDocuments.slice(0, maxNodes)`. -/
def limitedDocuments (docs : List Document) (f : GraphFilters) :
    List Document :=
  (filteredDocuments docs f).take f.maxNodes

/-- `limitedLinks`: filtered links whose endpoints are both among the
limited documents. -/
def limitedLinks (docs : List Document) (allLinks : List SemanticLink)
    (f : GraphFilters) : List SemanticLink :=
  (filteredLinks docs allLinks f).filter (fun l =>
    (limitedDocuments docs f).any (fun d => d.id == l.sourceDocumentId) &&
    (limitedDocuments docs f).any (fun d => d.id == l.targetDocumentId))

/-- `new Set(...)` on a list of strings: deduplicate keeping the first
occurrence, preserving order. -/
def setDedup (l : List String) : List String :=
  l.foldl (fun acc c => if acc.contains c then acc else acc ++ [c]) []

/-- `categories = Array.from(new Set(documents.map(doc => doc.category)
.filter(Boolean)))`: the distinct non-null, non-empty categories in first
occurrence order. -/
def categoriesOf (docs : List Document) : List String :=
  setDedup ((docs.filterMap Document.category).filter (fun c => c ≠ ""))

/-- JS `categories.indexOf(x) + 1`: 1-based index, `0` when absent
(`-1 + 1`). -/
def jsIndexOfPlus1 (l : List String) (x : String) : Nat :=
  match l.findIdx? (fun y => y == x) with
  | some i => i + 1
  | none => 0

/-- A node of the rendered graph. -/
structure GraphNode where
  id : String
  label : String
  nodeType : String
  group : Nat
  deriving Repr, DecidableEq

/-- The node built from a document in `graphNodes`. -/
def toNode (cats : List String) (d : Document) : GraphNode :=
  { id := toString d.id
  , label := strTake d.title 8
  , nodeType := jsOrStr d.category "document"
  , group := jsIndexOfPlus1 cats (jsOrStr d.category "") }

/-- `graphNodes = limitedDocuments.map(doc => ({...}))`: one node per
limited document, with no reference to the links. -/
def graphNodes (docs : List Document) (f : GraphFilters) : List GraphNode :=
  (limitedDocuments docs f).map (toNode (categoriesOf docs))

/-- An edge of the rendered graph. -/
structure GraphLink where
  source : String
  target : String
  linkType : String
  strength : Option Int
  deriving Repr, DecidableEq

/-- `graphLinks = limitedLinks.map(link => ({...}))`. -/
def graphLinks (docs : List Document) (allLinks : List SemanticLink)
    (f : GraphFilters) : List GraphLink :=
  (limitedLinks docs allLinks f).map (fun l =>
    { source := toString l.sourceDocumentId
    , target := toString l.targetDocumentId
    , linkType := l.linkType
    , strength := l.strength })

/-! ## Helper lemmas -/

theorem mem_deleteById {α : Type} (getId : α → Nat) (l : List α) (id : Nat)
    (x : α) : x ∈ deleteById getId l id ↔ x ∈ l ∧ getId x ≠ id := by
  simp [deleteById]

theorem mem_foldl_deleteById {α : Type} (getId : α → Nat) :
    ∀ (ms acc : List α) (x : α),
      x ∈ ms.foldl (fun a e => deleteById getId a (getId e)) acc →
      x ∈ acc ∧ ∀ e ∈ ms, getId x ≠ getId e := by
  intro ms
  induction ms with
  | nil => intro acc x hx; simpa using hx
  | cons e ms ih =>
    intro acc x hx
    simp only [List.foldl_cons] at hx
    obtain ⟨h1, h2⟩ := ih _ x hx
    rw [mem_deleteById] at h1
    exact ⟨h1.1, by
      intro e' he'
      rcases List.mem_cons.mp he' with rfl | hmem
      · exact h1.2
      · exact h2 e' hmem⟩

/-! ## C2: document deletion cascades -/

/-- C2: for every document id `D` present in the Document table,
`deleteDocument D` returns `true`, removes the Document row, and leaves no
DocumentTag row with `documentId = D` and no SemanticLink row with source or
target `D`. -/
theorem c2_delete_document_cascades (s : Store) (D : Nat)
    (h : ∃ d ∈ s.documents, d.id = D) :
    (deleteDocument s D).1 = true ∧
    (∀ dt ∈ (deleteDocument s D).2.documentTags, dt.documentId ≠ D) ∧
    (∀ l ∈ (deleteDocument s D).2.semanticLinks,
      l.sourceDocumentId ≠ D ∧ l.targetDocumentId ≠ D) ∧
    (∀ d ∈ (deleteDocument s D).2.documents, d.id ≠ D) := by
  obtain ⟨d0, hd0, hid⟩ := h
  refine ⟨?_, ?_, ?_, ?_⟩
  · simp only [deleteDocument]
    exact List.any_eq_true.mpr ⟨d0, hd0, by simp [hid]⟩
  · intro dt hdt
    simp only [deleteDocument] at hdt
    obtain ⟨h1, h2⟩ := mem_foldl_deleteById DocumentTag.id _ _ dt hdt
    intro hD
    exact h2 dt (List.mem_filter.mpr ⟨h1, by simp [hD]⟩) rfl
  · intro l hl
    simp only [deleteDocument] at hl
    obtain ⟨h1, h2⟩ := mem_foldl_deleteById SemanticLink.id _ _ l hl
    constructor
    · intro hD
      exact h2 l (List.mem_filter.mpr ⟨h1, by simp [hD]⟩) rfl
    · intro hD
      exact h2 l (List.mem_filter.mpr ⟨h1, by simp [hD]⟩) rfl
  · intro d hd
    simp only [deleteDocument] at hd
    exact ((mem_deleteById Document.id _ D d).mp hd).2

/-- Witness for C2 at a concrete store: one document, one tag join row and
one link referencing it. -/
theorem c2_witness :
    (∃ d ∈ (⟨[], [⟨1, 1, "A", "a.txt", "text", none, none, none, 0, 0⟩],
        [⟨1, "ml"⟩], [⟨1, 1, 1⟩], [⟨1, 1, 2, "related", some 2⟩], [], [],
        ⟨1, 2, 2, 2, 2, 1, 1⟩⟩ : Store).documents, d.id = 1) ∧
    ((deleteDocument (⟨[], [⟨1, 1, "A", "a.txt", "text", none, none, none, 0, 0⟩],
        [⟨1, "ml"⟩], [⟨1, 1, 1⟩], [⟨1, 1, 2, "related", some 2⟩], [], [],
        ⟨1, 2, 2, 2, 2, 1, 1⟩⟩ : Store) 1).1 = true ∧
      (∀ dt ∈ (deleteDocument (⟨[], [⟨1, 1, "A", "a.txt", "text", none, none, none, 0, 0⟩],
        [⟨1, "ml"⟩], [⟨1, 1, 1⟩], [⟨1, 1, 2, "related", some 2⟩], [], [],
        ⟨1, 2, 2, 2, 2, 1, 1⟩⟩ : Store) 1).2.documentTags, dt.documentId ≠ 1) ∧
      (∀ l ∈ (deleteDocument (⟨[], [⟨1, 1, "A", "a.txt", "text", none, none, none, 0, 0⟩],
        [⟨1, "ml"⟩], [⟨1, 1, 1⟩], [⟨1, 1, 2, "related", some 2⟩], [], [],
        ⟨1, 2, 2, 2, 2, 1, 1⟩⟩ : Store) 1).2.semanticLinks,
        l.sourceDocumentId ≠ 1 ∧ l.targetDocumentId ≠ 1) ∧
      (∀ d ∈ (deleteDocument (⟨[], [⟨1, 1, "A", "a.txt", "text", none, none, none, 0, 0⟩],
        [⟨1, "ml"⟩], [⟨1, 1, 1⟩], [⟨1, 1, 2, "related", some 2⟩], [], [],
        ⟨1, 2, 2, 2, 2, 1, 1⟩⟩ : Store) 1).2.documents, d.id ≠ 1)) :=
  ⟨by decide, c2_delete_document_cascades _ 1 (by decide)⟩

/-! ## C9: deletion of an absent document -/

/-- C9 counterexample: with Document 9 absent but a SemanticLink referencing
id 9 present (such a dangling row is insertable, as no referential check
exists), `deleteDocument 9` returns `false` yet removes the link — it is not
a no-op. -/
theorem c9_counterexample :
    (getDocument (⟨[], [⟨1, 1, "A", "a.txt", "text", none, none, none, 0, 0⟩],
        [], [], [⟨1, 1, 9, "related", some 2⟩], [], [],
        ⟨1, 2, 1, 1, 2, 1, 1⟩⟩ : Store) 9 = none) ∧
    (deleteDocument (⟨[], [⟨1, 1, "A", "a.txt", "text", none, none, none, 0, 0⟩],
        [], [], [⟨1, 1, 9, "related", some 2⟩], [], [],
        ⟨1, 2, 1, 1, 2, 1, 1⟩⟩ : Store) 9).1 = false ∧
    (deleteDocument (⟨[], [⟨1, 1, "A", "a.txt", "text", none, none, none, 0, 0⟩],
        [], [], [⟨1, 1, 9, "related", some 2⟩], [], [],
        ⟨1, 2, 1, 1, 2, 1, 1⟩⟩ : Store) 9).2.semanticLinks = [] := by decide

/-- C9 (amended): for an id with no Document row, `deleteDocument` returns
`false` and leaves users, documents, tags, ontologies, priorities and the id
counters unchanged; the cascade filters still run, so DocumentTag and
SemanticLink rows referencing the id are removed — when no such row exists
the call is a complete no-op. -/
theorem c9_delete_missing_document (s : Store) (D : Nat)
    (h : ∀ d ∈ s.documents, d.id ≠ D) :
    (deleteDocument s D).1 = false ∧
    (deleteDocument s D).2.users = s.users ∧
    (deleteDocument s D).2.documents = s.documents ∧
    (deleteDocument s D).2.tags = s.tags ∧
    (deleteDocument s D).2.ontologies = s.ontologies ∧
    (deleteDocument s D).2.priorities = s.priorities ∧
    (deleteDocument s D).2.currentIds = s.currentIds ∧
    ((∀ dt ∈ s.documentTags, dt.documentId ≠ D) →
      (deleteDocument s D).2.documentTags = s.documentTags) ∧
    ((∀ l ∈ s.semanticLinks, l.sourceDocumentId ≠ D ∧ l.targetDocumentId ≠ D) →
      (deleteDocument s D).2.semanticLinks = s.semanticLinks) := by
  refine ⟨?_, rfl, ?_, rfl, rfl, rfl, rfl, ?_, ?_⟩
  · simp only [deleteDocument]
    exact List.any_eq_false.mpr (fun d hd => by simpa using h d hd)
  · simp only [deleteDocument, deleteById]
    exact List.filter_eq_self.mpr (fun d hd => by simpa using h d hd)
  · intro hdt
    have hnil : s.documentTags.filter (fun dt => dt.documentId == D) = [] :=
      List.filter_eq_nil_iff.mpr (fun dt hmem => by simpa using hdt dt hmem)
    simp only [deleteDocument, hnil, List.foldl_nil]
  · intro hl
    have hnil : s.semanticLinks.filter
        (fun l => l.sourceDocumentId == D || l.targetDocumentId == D) = [] :=
      List.filter_eq_nil_iff.mpr (fun l hmem => by
        have := hl l hmem
        simp [this.1, this.2])
    simp only [deleteDocument, hnil, List.foldl_nil]

/-- Witness for C9 (amended) at a concrete store with no rows referencing
the missing id 7. -/
theorem c9_witness :
    (∀ d ∈ (⟨[], [⟨1, 1, "A", "a.txt", "text", none, none, none, 0, 0⟩],
        [], [⟨1, 1, 1⟩], [⟨1, 1, 2, "related", some 2⟩], [], [],
        ⟨1, 2, 1, 2, 2, 1, 1⟩⟩ : Store).documents, d.id ≠ 7) ∧
    (deleteDocument (⟨[], [⟨1, 1, "A", "a.txt", "text", none, none, none, 0, 0⟩],
        [], [⟨1, 1, 1⟩], [⟨1, 1, 2, "related", some 2⟩], [], [],
        ⟨1, 2, 1, 2, 2, 1, 1⟩⟩ : Store) 7).1 = false :=
  ⟨by decide, (c9_delete_missing_document _ 7 (by decide)).1⟩

/-! ## C10: case-insensitive user lookup -/

/-- C10: `getUserByUsername` returns a user exactly when some stored user's
username matches case-insensitively, and any returned user is such a stored
user; `getUserByEmail` behaves the same way for emails. -/
theorem c10_lookup_case_insensitive (s : Store) (q : String) :
    ((getUserByUsername s q).isSome ↔
      ∃ u ∈ s.users, lower u.username = lower q) ∧
    (∀ u, getUserByUsername s q = some u →
      u ∈ s.users ∧ lower u.username = lower q) ∧
    ((getUserByEmail s q).isSome ↔
      ∃ u ∈ s.users, lower u.email = lower q) ∧
    (∀ u, getUserByEmail s q = some u →
      u ∈ s.users ∧ lower u.email = lower q) := by
  refine ⟨?_, ?_, ?_, ?_⟩
  · rw [getUserByUsername, List.find?_isSome]
    simp
  · intro u hu
    exact ⟨List.mem_of_find?_eq_some hu,
      by simpa using List.find?_some hu⟩
  · rw [getUserByEmail, List.find?_isSome]
    simp
  · intro u hu
    exact ⟨List.mem_of_find?_eq_some hu,
      by simpa using List.find?_some hu⟩

/-- Witness for C10 at a concrete store: the user stored as "Alice" is found
by the query "aLiCe". -/
theorem c10_witness :
    ((getUserByUsername (⟨[⟨1, "Alice", "a@x.com", "p"⟩], [], [], [], [], [], [],
        ⟨2, 1, 1, 1, 1, 1, 1⟩⟩ : Store) "aLiCe").isSome ↔
      ∃ u ∈ (⟨[⟨1, "Alice", "a@x.com", "p"⟩], [], [], [], [], [], [],
        ⟨2, 1, 1, 1, 1, 1, 1⟩⟩ : Store).users, lower u.username = lower "aLiCe") :=
  (c10_lookup_case_insensitive _ "aLiCe").1

/-! ## C5: no referential check on link / join creation -/

/-- C5 counterexample: on the empty store (no documents, no tags at all),
`createSemanticLink` and `addTagToDocument` silently insert rows whose
endpoint ids exist in no table; neither operation can report a failure. -/
theorem c5_counterexample :
    emptyStore.documents = [] ∧ emptyStore.tags = [] ∧
    (createSemanticLink emptyStore ⟨1, 2, "related", some 3⟩).2.semanticLinks =
      [⟨1, 1, 2, "related", some 3⟩] ∧
    (addTagToDocument emptyStore 1 2).2.documentTags = [⟨1, 1, 2⟩] := by decide

/-- C5 (amended): the store performs no referential check — even when the
endpoint ids are absent from the relevant tables, `createSemanticLink`
appends a row carrying exactly the given endpoints and `addTagToDocument`
(absent an existing join row) appends the join row; no typed failure exists
or is reported. -/
theorem c5_no_referential_check (s : Store) (ins : InsertSemanticLink)
    (documentId tagId : Nat)
    (hsrc : ∀ d ∈ s.documents, d.id ≠ ins.sourceDocumentId)
    (htgt : ∀ d ∈ s.documents, d.id ≠ ins.targetDocumentId)
    (hdoc : ∀ d ∈ s.documents, d.id ≠ documentId)
    (htag : ∀ t ∈ s.tags, t.id ≠ tagId)
    (hnopair : ∀ dt ∈ s.documentTags,
      ¬(dt.documentId = documentId ∧ dt.tagId = tagId)) :
    (createSemanticLink s ins).2.semanticLinks =
      s.semanticLinks ++ [(createSemanticLink s ins).1] ∧
    (createSemanticLink s ins).1.sourceDocumentId = ins.sourceDocumentId ∧
    (createSemanticLink s ins).1.targetDocumentId = ins.targetDocumentId ∧
    (addTagToDocument s documentId tagId).2.documentTags =
      s.documentTags ++ [(addTagToDocument s documentId tagId).1] ∧
    (addTagToDocument s documentId tagId).1.documentId = documentId ∧
    (addTagToDocument s documentId tagId).1.tagId = tagId := by
  have hfind : s.documentTags.find?
      (fun dt => dt.documentId == documentId && dt.tagId == tagId) = none := by
    rw [List.find?_eq_none]
    intro dt hdt
    have := hnopair dt hdt
    simp only [Bool.and_eq_true, beq_iff_eq]
    rintro ⟨h1, h2⟩
    exact this ⟨h1, h2⟩
  refine ⟨rfl, rfl, rfl, ?_, ?_, ?_⟩
  · simp only [addTagToDocument, hfind]
  · simp only [addTagToDocument, hfind]
  · simp only [addTagToDocument, hfind]

/-- Witness for C5 (amended) on the empty store. -/
theorem c5_witness :
    (createSemanticLink emptyStore ⟨1, 2, "related", some 3⟩).2.semanticLinks =
      emptyStore.semanticLinks ++
        [(createSemanticLink emptyStore ⟨1, 2, "related", some 3⟩).1] ∧
    (addTagToDocument emptyStore 1 2).2.documentTags =
      emptyStore.documentTags ++ [(addTagToDocument emptyStore 1 2).1] :=
  ⟨(c5_no_referential_check emptyStore ⟨1, 2, "related", some 3⟩ 1 2
      (by decide) (by decide) (by decide) (by decide) (by decide)).1,
   (c5_no_referential_check emptyStore ⟨1, 2, "related", some 3⟩ 1 2
      (by decide) (by decide) (by decide) (by decide) (by decide)).2.2.2.1⟩

/-! ## C7: duplicate user creation -/

/-- C7 counterexample: `createUser` performs no uniqueness check — two calls
with the same username and email both succeed and two User rows are
stored. -/
theorem c7_counterexample :
    ((createUser (createUser emptyStore ⟨"alice", "a@x.com", "p1"⟩).2
      ⟨"alice", "a@x.com", "p2"⟩).2.users.map User.username =
        ["alice", "alice"]) ∧
    ((createUser (createUser emptyStore ⟨"alice", "a@x.com", "p1"⟩).2
      ⟨"alice", "a@x.com", "p2"⟩).2.users.length = 2) := by decide

/-- The registration failure reported for a duplicate user. -/
inductive RegError where
  | conflict
  deriving Repr, DecidableEq

/-- Modelled from the spec: the registration collaborator (the auth module
wired by `setupAuth`, not present under `src/`).  Per §7, "User creation
must fail with Conflict, left to the collaborator to surface": it looks up
the requested username and email via the store's (case-insensitive) lookups
and reports `Conflict` without touching the store when either already
exists; only otherwise does it call `createUser`. -/
def registerUser (s : Store) (ins : InsertUser) :
    Except RegError User × Store :=
  match getUserByUsername s ins.username with
  | some _ => (Except.error RegError.conflict, s)
  | none =>
    match getUserByEmail s ins.email with
    | some _ => (Except.error RegError.conflict, s)
    | none =>
      let r := createUser s ins
      (Except.ok r.1, r.2)

/-- C7 (amended): `createUser` itself always inserts, growing the user table
by one row whatever its contents; the Conflict rejection lives in the
registration collaborator, which on a duplicate username or email reports
`Conflict` and leaves the store unchanged. -/
theorem c7_conflict_at_registration (s : Store) (ins : InsertUser)
    (h : (getUserByUsername s ins.username).isSome ∨
         (getUserByEmail s ins.email).isSome) :
    (∀ s2 : Store, ∀ ins2 : InsertUser,
      (createUser s2 ins2).2.users = s2.users ++ [(createUser s2 ins2).1]) ∧
    (registerUser s ins).1 = Except.error RegError.conflict ∧
    (registerUser s ins).2 = s := by
  refine ⟨fun s2 ins2 => rfl, ?_⟩
  rcases h with h | h
  · obtain ⟨u, hu⟩ := Option.isSome_iff_exists.mp h
    simp [registerUser, hu]
  · obtain ⟨u, hu⟩ := Option.isSome_iff_exists.mp h
    cases hn : getUserByUsername s ins.username with
    | none => simp [registerUser, hn, hu]
    | some v => simp [registerUser, hn]

/-- Witness for C7 (amended): registering "Alice" again (by case variant)
over a store already holding her is rejected with Conflict. -/
theorem c7_witness :
    ((getUserByUsername (⟨[⟨1, "Alice", "a@x.com", "p"⟩], [], [], [], [], [], [],
        ⟨2, 1, 1, 1, 1, 1, 1⟩⟩ : Store) "alice").isSome ∨
      (getUserByEmail (⟨[⟨1, "Alice", "a@x.com", "p"⟩], [], [], [], [], [], [],
        ⟨2, 1, 1, 1, 1, 1, 1⟩⟩ : Store) "b@y.com").isSome) ∧
    (registerUser (⟨[⟨1, "Alice", "a@x.com", "p"⟩], [], [], [], [], [], [],
        ⟨2, 1, 1, 1, 1, 1, 1⟩⟩ : Store) ⟨"alice", "b@y.com", "q"⟩).1 =
      Except.error RegError.conflict :=
  ⟨Or.inl (by decide),
   (c7_conflict_at_registration _ ⟨"alice", "b@y.com", "q"⟩
      (Or.inl (by decide))).2.1⟩


/-! ## C8: idempotence of addTagToDocument -/

/-- C8: `addTagToDocument` is idempotent — a second call with the same pair
returns the same row and leaves the state unchanged; starting from a table
with at most one row for the pair, two calls leave exactly one row for it;
and a single call preserves "at most one row per pair" for every pair. -/
theorem c8_add_tag_idempotent (s : Store) (d t : Nat) :
    ((addTagToDocument (addTagToDocument s d t).2 d t).2 =
      (addTagToDocument s d t).2) ∧
    ((addTagToDocument (addTagToDocument s d t).2 d t).1 =
      (addTagToDocument s d t).1) ∧
    ((s.documentTags.filter
        (fun dt => dt.documentId == d && dt.tagId == t)).length ≤ 1 →
      ((addTagToDocument (addTagToDocument s d t).2 d t).2.documentTags.filter
        (fun dt => dt.documentId == d && dt.tagId == t)).length = 1) ∧
    (∀ d2 t2 : Nat,
      (s.documentTags.filter
        (fun dt => dt.documentId == d2 && dt.tagId == t2)).length ≤ 1 →
      ((addTagToDocument s d t).2.documentTags.filter
        (fun dt => dt.documentId == d2 && dt.tagId == t2)).length ≤ 1) := by
  cases hfind : s.documentTags.find?
      (fun dt => dt.documentId == d && dt.tagId == t) with
  | some dt0 =>
    have hstate : addTagToDocument s d t = (dt0, s) := by
      simp only [addTagToDocument, hfind]
    have h2 : (addTagToDocument s d t).2 = s := by rw [hstate]
    have hsecond : addTagToDocument (addTagToDocument s d t).2 d t = (dt0, s) := by
      rw [h2, hstate]
    refine ⟨?_, ?_, ?_, ?_⟩
    · rw [hsecond, hstate]
    · rw [hsecond, hstate]
    · intro hle
      have hmem : dt0 ∈ s.documentTags.filter
          (fun dt => dt.documentId == d && dt.tagId == t) := by
        rw [List.mem_filter]
        refine ⟨List.mem_of_find?_eq_some hfind, ?_⟩
        have hp := List.find?_some hfind
        simpa using hp
      have hpos : 0 < (s.documentTags.filter
          (fun dt => dt.documentId == d && dt.tagId == t)).length :=
        List.length_pos.mpr (List.ne_nil_of_mem hmem)
      have hgoal : (addTagToDocument (addTagToDocument s d t).2 d t).2.documentTags
          = s.documentTags := by rw [hsecond]
      rw [hgoal]
      omega
    · intro d2 t2 hle
      have hgoal : (addTagToDocument s d t).2.documentTags = s.documentTags := by
        rw [hstate]
      rw [hgoal]
      exact hle
  | none =>
    have hstate : addTagToDocument s d t =
        (⟨s.currentIds.documentTags, d, t⟩,
         { s with
           documentTags := s.documentTags ++ [⟨s.currentIds.documentTags, d, t⟩],
           currentIds := { s.currentIds with
             documentTags := s.currentIds.documentTags + 1 } }) := by
      simp only [addTagToDocument, hfind]
    have hnil : s.documentTags.filter
        (fun dt => dt.documentId == d && dt.tagId == t) = [] :=
      List.filter_eq_nil_iff.mpr (List.find?_eq_none.mp hfind)
    have hfind2 : (s.documentTags ++
        [(⟨s.currentIds.documentTags, d, t⟩ : DocumentTag)]).find?
        (fun dt => dt.documentId == d && dt.tagId == t) =
        some ⟨s.currentIds.documentTags, d, t⟩ := by
      rw [List.find?_append, hfind]
      simp
    refine ⟨?_, ?_, ?_, ?_⟩
    · rw [hstate]
      simp only [addTagToDocument, hfind2]
    · rw [hstate]
      simp only [addTagToDocument, hfind2]
    · intro hle
      rw [hstate]
      simp only [addTagToDocument, hfind2, List.filter_append, hnil]
      simp
    · intro d2 t2 hle
      rw [hstate]
      simp only [List.filter_append]
      rw [List.length_append]
      by_cases hp : ((⟨s.currentIds.documentTags, d, t⟩ : DocumentTag).documentId
          == d2 && (⟨s.currentIds.documentTags, d, t⟩ : DocumentTag).tagId == t2)
      · have hd2 : d = d2 ∧ t = t2 := by
          simpa using hp
        have : s.documentTags.filter
            (fun dt => dt.documentId == d2 && dt.tagId == t2) = [] := by
          rw [← hd2.1, ← hd2.2]
          exact hnil
        simp [this, hp]
      · have : List.filter (fun dt => dt.documentId == d2 && dt.tagId == t2)
            [(⟨s.currentIds.documentTags, d, t⟩ : DocumentTag)] = [] := by
          simp only [List.filter, hp]
        rw [this]
        simpa using hle

/-- Witness for C8 at a concrete store: document 1, tag 1, empty join
table. -/
theorem c8_witness :
    ((⟨[], [⟨1, 1, "A", "a.txt", "text", none, none, none, 0, 0⟩], [⟨1, "ml"⟩],
        [], [], [], [], ⟨1, 2, 2, 1, 1, 1, 1⟩⟩ : Store).documentTags.filter
        (fun dt => dt.documentId == 1 && dt.tagId == 1)).length ≤ 1 ∧
    ((addTagToDocument (addTagToDocument
        (⟨[], [⟨1, 1, "A", "a.txt", "text", none, none, none, 0, 0⟩], [⟨1, "ml"⟩],
        [], [], [], [], ⟨1, 2, 2, 1, 1, 1, 1⟩⟩ : Store) 1 1).2 1 1).2.documentTags.filter
        (fun dt => dt.documentId == 1 && dt.tagId == 1)).length = 1 :=
  ⟨by decide, (c8_add_tag_idempotent _ 1 1).2.2.1 (by decide)⟩

/-! ## C3: case-insensitive tag resolution -/

/-- Running a sequence of `getOrCreateTag` calls, collecting the returned
tags. -/
def runGetOrCreate : Store → List String → List Tag × Store
  | s, [] => ([], s)
  | s, n :: rest =>
    let r := getOrCreateTag s n
    let r2 := runGetOrCreate r.2 rest
    (r.1 :: r2.1, r2.2)

theorem runGetOrCreate_hit (L : String) (t0 : Tag) :
    ∀ (names : List String) (s : Store),
      (∀ m ∈ names, lower m = L) →
      s.tags.find? (fun t => lower t.name == L) = some t0 →
      runGetOrCreate s names = (names.map (fun _ => t0), s) := by
  intro names
  induction names with
  | nil => intro s _ _; rfl
  | cons n rest ih =>
    intro s hnames hfind
    have hn : lower n = L := hnames n (List.mem_cons_self n rest)
    have hpred : (fun t : Tag => lower t.name == lower n) =
        (fun t : Tag => lower t.name == L) := by
      funext t
      rw [hn]
    have hcall : getOrCreateTag s n = (t0, s) := by
      rw [getOrCreateTag, hpred, hfind]
    simp only [runGetOrCreate, hcall]
    rw [ih s (fun m hm => hnames m (List.mem_cons_of_mem n hm)) hfind]
    simp

/-- C3: `getOrCreateTag` on a case-insensitive hit returns the first
matching existing Tag with the store unchanged; and for any nonempty
sequence of names equal up to letter case, starting from a store with no
case-insensitive match, exactly one Tag row is appended and every call in
the sequence returns that same tag. -/
theorem c3_tag_resolver_case_insensitive :
    (∀ (s : Store) (name : String) (t : Tag),
      s.tags.find? (fun t2 => lower t2.name == lower name) = some t →
      getOrCreateTag s name = (t, s)) ∧
    (∀ (s : Store) (n : String) (rest : List String),
      (∀ m ∈ rest, lower m = lower n) →
      (∀ t ∈ s.tags, lower t.name ≠ lower n) →
      (runGetOrCreate s (n :: rest)).2.tags =
        s.tags ++ [⟨s.currentIds.tags, n⟩] ∧
      ∀ t ∈ (runGetOrCreate s (n :: rest)).1,
        t = (⟨s.currentIds.tags, n⟩ : Tag)) := by
  constructor
  · intro s name t hfind
    rw [getOrCreateTag, hfind]
  · intro s n rest hrest hmiss
    have hfind : s.tags.find? (fun t => lower t.name == lower n) = none :=
      List.find?_eq_none.mpr (fun t ht => by simpa using hmiss t ht)
    have hcall : getOrCreateTag s n =
        ((⟨s.currentIds.tags, n⟩ : Tag),
         { s with
           tags := s.tags ++ [⟨s.currentIds.tags, n⟩],
           currentIds := { s.currentIds with tags := s.currentIds.tags + 1 } }) := by
      simp only [getOrCreateTag, hfind, createTag]
    have hfind2 : (s.tags ++ [(⟨s.currentIds.tags, n⟩ : Tag)]).find?
        (fun t => lower t.name == lower n) =
        some ⟨s.currentIds.tags, n⟩ := by
      rw [List.find?_append, hfind]
      simp
    have hrun := runGetOrCreate_hit (lower n) ⟨s.currentIds.tags, n⟩ rest
      { s with
        tags := s.tags ++ [⟨s.currentIds.tags, n⟩],
        currentIds := { s.currentIds with tags := s.currentIds.tags + 1 } }
      hrest hfind2
    constructor
    · simp only [runGetOrCreate, hcall, hrun]
    · intro t ht
      simp only [runGetOrCreate, hcall, hrun] at ht
      rcases List.mem_cons.mp ht with rfl | hmem
      · rfl
      · obtain ⟨m, _, h⟩ := List.mem_map.mp hmem
        exact h.symm

/-- Witness for C3: resolving ["Research", "research", "RESEARCH"] on a
store with no matching tag creates exactly one tag. -/
theorem c3_witness :
    (∀ m ∈ ["research", "RESEARCH"], lower m = lower "Research") ∧
    (∀ t ∈ (⟨[], [], [⟨1, "ml"⟩], [], [], [], [],
        ⟨1, 1, 2, 1, 1, 1, 1⟩⟩ : Store).tags, lower t.name ≠ lower "Research") ∧
    (runGetOrCreate (⟨[], [], [⟨1, "ml"⟩], [], [], [], [],
        ⟨1, 1, 2, 1, 1, 1, 1⟩⟩ : Store)
        ("Research" :: ["research", "RESEARCH"])).2.tags =
      (⟨[], [], [⟨1, "ml"⟩], [], [], [], [],
        ⟨1, 1, 2, 1, 1, 1, 1⟩⟩ : Store).tags ++ [⟨2, "Research"⟩] :=
  ⟨by decide, by decide,
   (c3_tag_resolver_case_insensitive.2 _ "Research" ["research", "RESEARCH"]
      (by decide) (by decide)).1⟩


/-! ## C4: strength defaulting -/

/-- C4 evaluation: `MemStorage.createSemanticLink` stores `{...insertLink,
id}` without applying the schema-level `default(1)`: an insert with absent
strength is stored with absent strength (not `1`), and a non-positive
strength is stored as given (no positivity constraint is enforced). -/
theorem c4_strength_not_defaulted :
    ((createSemanticLink emptyStore ⟨1, 2, "related", none⟩).1.strength
      = none) ∧
    ((createSemanticLink emptyStore ⟨1, 2, "related", none⟩).2.semanticLinks.map
      SemanticLink.strength = [none]) ∧
    ((createSemanticLink emptyStore ⟨1, 2, "related", some (-5)⟩).1.strength
      = some (-5)) := by decide

/-! ## C6: node emission in the graph build -/

/-- C6 counterexample: a single document with no links at all (hence zero
surviving edges) is still emitted as a node; there is no "keep isolated
nodes" flag anywhere in the pipeline. -/
theorem c6_counterexample :
    graphNodes [⟨1, 1, "Doc", "d.txt", "text", none, none, none, 0, 0⟩]
      ⟨"", "all", [], 1, 50⟩ = [⟨"1", "Doc", "document", 0⟩] ∧
    graphLinks [⟨1, 1, "Doc", "d.txt", "text", none, none, none, 0, 0⟩] []
      ⟨"", "all", [], 1, 50⟩ = [] := by decide

/-- C6 (amended): every document surviving the search/category filters and
the maxNodes truncation is emitted as a node — `graphNodes` does not take
the links as an input at all, so a requested document with zero surviving
edges is emitted exactly like any other; no keep-isolated-nodes flag
exists. -/
theorem c6_nodes_independent_of_edges (docs : List Document)
    (f : GraphFilters) (d : Document) (h : d ∈ limitedDocuments docs f) :
    toNode (categoriesOf docs) d ∈ graphNodes docs f ∧
    (graphNodes docs f).length = (limitedDocuments docs f).length := by
  constructor
  · exact List.mem_map_of_mem _ h
  · simp [graphNodes]

/-- Witness for C6 (amended): the edgeless document of the counterexample
store is in the node list. -/
theorem c6_witness :
    ((⟨1, 1, "Doc", "d.txt", "text", none, none, none, 0, 0⟩ : Document) ∈
      limitedDocuments [⟨1, 1, "Doc", "d.txt", "text", none, none, none, 0, 0⟩]
        ⟨"", "all", [], 1, 50⟩) ∧
    toNode (categoriesOf [⟨1, 1, "Doc", "d.txt", "text", none, none, none, 0, 0⟩])
        ⟨1, 1, "Doc", "d.txt", "text", none, none, none, 0, 0⟩ ∈
      graphNodes [⟨1, 1, "Doc", "d.txt", "text", none, none, none, 0, 0⟩]
        ⟨"", "all", [], 1, 50⟩ :=
  ⟨by decide,
   (c6_nodes_independent_of_edges _ ⟨"", "all", [], 1, 50⟩ _ (by decide)).1⟩


/-! ## C1: link deduplication keeps the strongest link, first on ties -/

/-- The numeric strength a link contributes to the dedup comparison
(`x.strength || 0`). -/
def sVal (l : SemanticLink) : Int := orZero l.strength

/-- The links of the input connecting the unordered pair `p` in either
direction, in input order. -/
def keyGroup (links : List SemanticLink) (p : Nat × Nat) : List SemanticLink :=
  links.filter (fun l => decide (pairKey l = p))

/-- `l` is a maximum-strength element of `ls`, and the first such in input
order: everything before it is strictly weaker, everything after it no
stronger. -/
def IsFirstMax (ls : List SemanticLink) (l : SemanticLink) : Prop :=
  ∃ pre post, ls = pre ++ l :: post ∧
    (∀ x ∈ pre, sVal x < sVal l) ∧ (∀ x ∈ post, sVal x ≤ sVal l)

/-- The comparison the dedup loop performs on one pair group, lifted out of
the map. -/
def bestStep (acc : Option SemanticLink) (l : SemanticLink) :
    Option SemanticLink :=
  match acc with
  | none => some l
  | some b => if jsGt l.strength (orZero b.strength) then some l else some b

theorem mapGet_mapSet (m : List ((Nat × Nat) × SemanticLink))
    (k : Nat × Nat) (v : SemanticLink) (k2 : Nat × Nat) :
    mapGet (mapSet m k v) k2 = if k2 = k then some v else mapGet m k2 := by
  induction m with
  | nil =>
    have h1 : mapSet [] k v = [(k, v)] := rfl
    have h2 : mapGet [(k, v)] k2 = if k = k2 then some v else none := rfl
    rw [h1, h2]
    by_cases h : k2 = k
    · rw [if_pos h.symm, if_pos h]
    · rw [if_neg (fun hh => h hh.symm), if_neg h]
      rfl
  | cons kv rest ih =>
    obtain ⟨k1, v1⟩ := kv
    have hms : mapSet ((k1, v1) :: rest) k v =
        if k1 = k then (k, v) :: rest else (k1, v1) :: mapSet rest k v := rfl
    have hmg : mapGet ((k1, v1) :: rest) k2 =
        if k1 = k2 then some v1 else mapGet rest k2 := rfl
    rw [hms, hmg]
    by_cases h1 : k1 = k
    · subst h1
      have hga : mapGet ((k1, v) :: rest) k2 =
          if k1 = k2 then some v else mapGet rest k2 := rfl
      rw [if_pos rfl, hga]
      by_cases h2 : k1 = k2
      · rw [if_pos h2, if_pos h2.symm]
      · rw [if_neg h2, if_neg (fun hh => h2 hh.symm), if_neg h2]
    · have hgb : mapGet ((k1, v1) :: mapSet rest k v) k2 =
          if k1 = k2 then some v1 else mapGet (mapSet rest k v) k2 := rfl
      rw [if_neg h1, hgb, ih]
      by_cases h2 : k1 = k2
      · have h3 : ¬ k2 = k := fun hh => h1 (h2.trans hh)
        rw [if_pos h2, if_neg h3, if_pos h2]
      · by_cases h3 : k2 = k
        · rw [if_neg h2, if_pos h3, if_pos h3]
        · rw [if_neg h2, if_neg h3, if_neg h3, if_neg h2]

theorem mem_keys_mapSet (k : Nat × Nat) (v : SemanticLink) :
    ∀ (m : List ((Nat × Nat) × SemanticLink)) (k2 : Nat × Nat),
      k2 ∈ (mapSet m k v).map Prod.fst → k2 ∈ m.map Prod.fst ∨ k2 = k := by
  intro m
  induction m with
  | nil =>
    intro k2 h
    have h1 : mapSet [] k v = [(k, v)] := rfl
    rw [h1] at h
    simp at h
    exact Or.inr h
  | cons kv rest ih =>
    obtain ⟨k1, v1⟩ := kv
    intro k2 h
    have hms : mapSet ((k1, v1) :: rest) k v =
        if k1 = k then (k, v) :: rest else (k1, v1) :: mapSet rest k v := rfl
    rw [hms] at h
    by_cases h1 : k1 = k
    · rw [if_pos h1] at h
      rw [List.map_cons, List.mem_cons] at h
      rcases h with h | h
      · exact Or.inr h
      · exact Or.inl (by rw [List.map_cons]; exact List.mem_cons_of_mem _ h)
    · rw [if_neg h1] at h
      rw [List.map_cons, List.mem_cons] at h
      rcases h with h | h
      · exact Or.inl (by rw [List.map_cons]; exact List.mem_cons.mpr (Or.inl h))
      · rcases ih k2 h with h2 | h2
        · exact Or.inl (by rw [List.map_cons]; exact List.mem_cons_of_mem _ h2)
        · exact Or.inr h2

/-- Invariant of the dedup map: every entry is stored under its own pair
key, and keys are unique. -/
def MapInv (m : List ((Nat × Nat) × SemanticLink)) : Prop :=
  (∀ kv ∈ m, pairKey kv.2 = kv.1) ∧ (m.map Prod.fst).Nodup

theorem mapInv_mapSet (k : Nat × Nat) (v : SemanticLink) (hv : pairKey v = k) :
    ∀ m, MapInv m → MapInv (mapSet m k v) := by
  intro m
  induction m with
  | nil =>
    intro _
    have h1 : mapSet [] k v = [(k, v)] := rfl
    rw [h1]
    constructor
    · intro kv hm
      rcases List.mem_cons.mp hm with rfl | hm2
      · exact hv
      · cases hm2
    · simp
  | cons kv rest ih =>
    obtain ⟨k1, v1⟩ := kv
    intro h
    obtain ⟨hcons, hnodup⟩ := h
    rw [List.map_cons, List.nodup_cons] at hnodup
    have hms : mapSet ((k1, v1) :: rest) k v =
        if k1 = k then (k, v) :: rest else (k1, v1) :: mapSet rest k v := rfl
    rw [hms]
    by_cases h1 : k1 = k
    · subst h1
      rw [if_pos rfl]
      constructor
      · intro kv2 hm
        rcases List.mem_cons.mp hm with rfl | hm2
        · exact hv
        · exact hcons kv2 (List.mem_cons_of_mem _ hm2)
      · rw [List.map_cons, List.nodup_cons]
        exact ⟨hnodup.1, hnodup.2⟩
    · rw [if_neg h1]
      have hrest : MapInv rest :=
        ⟨fun kv2 hm => hcons kv2 (List.mem_cons_of_mem _ hm), hnodup.2⟩
      obtain ⟨ih1, ih2⟩ := ih hrest
      constructor
      · intro kv2 hm
        rcases List.mem_cons.mp hm with rfl | hm2
        · exact hcons ⟨k1, v1⟩ (List.mem_cons_self _ _)
        · exact ih1 kv2 hm2
      · rw [List.map_cons, List.nodup_cons]
        constructor
        · intro hmem
          rcases mem_keys_mapSet k v rest _ hmem with h2 | h2
          · exact hnodup.1 h2
          · exact h1 h2
        · exact ih2

theorem mapGet_eq_none_of_not_mem_keys
    (m : List ((Nat × Nat) × SemanticLink)) (p : Nat × Nat)
    (h : p ∉ m.map Prod.fst) : mapGet m p = none := by
  induction m with
  | nil => rfl
  | cons kv rest ih =>
    obtain ⟨k1, v1⟩ := kv
    rw [List.map_cons, List.mem_cons] at h
    push_neg at h
    have hmg : mapGet ((k1, v1) :: rest) p =
        if k1 = p then some v1 else mapGet rest p := rfl
    rw [hmg, if_neg (fun hh : k1 = p => h.1 hh.symm)]
    exact ih h.2

theorem values_filter (p : Nat × Nat) :
    ∀ m, MapInv m →
      (m.map Prod.snd).filter (fun l => decide (pairKey l = p)) =
        (mapGet m p).toList := by
  intro m
  induction m with
  | nil => intro _; rfl
  | cons kv rest ih =>
    obtain ⟨k1, v1⟩ := kv
    intro h
    obtain ⟨hcons, hnodup⟩ := h
    rw [List.map_cons, List.nodup_cons] at hnodup
    have hk1 : pairKey v1 = k1 := hcons ⟨k1, v1⟩ (List.mem_cons_self _ _)
    have hrest : MapInv rest :=
      ⟨fun kv2 hm => hcons kv2 (List.mem_cons_of_mem _ hm), hnodup.2⟩
    have hmg : mapGet ((k1, v1) :: rest) p =
        if k1 = p then some v1 else mapGet rest p := rfl
    rw [List.map_cons, List.filter_cons, hmg]
    by_cases hp : k1 = p
    · have hnone : mapGet rest p = none := by
        rw [← hp]
        exact mapGet_eq_none_of_not_mem_keys rest k1 hnodup.1
      have hnil : (rest.map Prod.snd).filter
          (fun l => decide (pairKey l = p)) = [] := by
        rw [ih hrest, hnone]
        rfl
      rw [if_pos (by simp [hk1, hp]), hnil, if_pos hp]
      rfl
    · rw [if_neg (by simp [hk1, hp]), if_neg hp]
      exact ih hrest

theorem mapGet_dedupStep (m : List ((Nat × Nat) × SemanticLink))
    (l : SemanticLink) (p : Nat × Nat) :
    mapGet (dedupStep m l) p =
      if pairKey l = p then bestStep (mapGet m p) l else mapGet m p := by
  by_cases hp : pairKey l = p
  · subst hp
    rw [if_pos rfl]
    cases hm : mapGet m (pairKey l) with
    | none =>
      have hred : dedupStep m l = mapSet m (pairKey l) l := by
        unfold dedupStep
        rw [hm]
      have hb : bestStep none l = some l := rfl
      rw [hred, mapGet_mapSet, if_pos rfl]
      exact hb.symm
    | some b =>
      have hred : dedupStep m l =
          if jsGt l.strength (orZero b.strength) then mapSet m (pairKey l) l
          else m := by
        unfold dedupStep
        rw [hm]
      have hb : bestStep (some b) l =
          if jsGt l.strength (orZero b.strength) then some l else some b := rfl
      rw [hb, hred]
      by_cases hgt : jsGt l.strength (orZero b.strength)
      · rw [if_pos hgt, if_pos hgt, mapGet_mapSet, if_pos rfl]
      · rw [if_neg hgt, if_neg hgt, hm]
  · rw [if_neg hp]
    cases hm : mapGet m (pairKey l) with
    | none =>
      have hred : dedupStep m l = mapSet m (pairKey l) l := by
        unfold dedupStep
        rw [hm]
      rw [hred, mapGet_mapSet, if_neg (fun hh => hp hh.symm)]
    | some b =>
      have hred : dedupStep m l =
          if jsGt l.strength (orZero b.strength) then mapSet m (pairKey l) l
          else m := by
        unfold dedupStep
        rw [hm]
      rw [hred]
      by_cases hgt : jsGt l.strength (orZero b.strength)
      · rw [if_pos hgt, mapGet_mapSet, if_neg (fun hh => hp hh.symm)]
      · rw [if_neg hgt]

theorem mapInv_dedupStep (m : List ((Nat × Nat) × SemanticLink))
    (l : SemanticLink) (h : MapInv m) : MapInv (dedupStep m l) := by
  cases hm : mapGet m (pairKey l) with
  | none =>
    have hred : dedupStep m l = mapSet m (pairKey l) l := by
      unfold dedupStep
      rw [hm]
    rw [hred]
    exact mapInv_mapSet (pairKey l) l rfl m h
  | some b =>
    have hred : dedupStep m l =
        if jsGt l.strength (orZero b.strength) then mapSet m (pairKey l) l
        else m := by
      unfold dedupStep
      rw [hm]
    rw [hred]
    by_cases hgt : jsGt l.strength (orZero b.strength)
    · rw [if_pos hgt]
      exact mapInv_mapSet (pairKey l) l rfl m h
    · rw [if_neg hgt]
      exact h

theorem mapInv_foldl_dedupStep (links : List SemanticLink) :
    ∀ m, MapInv m → MapInv (links.foldl dedupStep m) := by
  induction links with
  | nil => exact fun m h => h
  | cons l rest ih =>
    intro m h
    exact ih (dedupStep m l) (mapInv_dedupStep m l h)

theorem foldl_dedupStep_mapGet (p : Nat × Nat) (links : List SemanticLink) :
    ∀ m, mapGet (links.foldl dedupStep m) p =
      (links.filter (fun l => decide (pairKey l = p))).foldl bestStep
        (mapGet m p) := by
  induction links with
  | nil => intro m; rfl
  | cons l rest ih =>
    intro m
    rw [List.foldl_cons, ih (dedupStep m l)]
    by_cases hp : pairKey l = p
    · rw [List.filter_cons, if_pos (by simpa using hp), List.foldl_cons,
        mapGet_dedupStep, if_pos hp]
    · rw [List.filter_cons, if_neg (by simpa using hp),
        mapGet_dedupStep, if_neg hp]

theorem foldl_bestStep_isSome (xs : List SemanticLink) :
    ∀ b, ∃ c, xs.foldl bestStep (some b) = some c := by
  induction xs with
  | nil => exact fun b => ⟨b, rfl⟩
  | cons x rest ih =>
    intro b
    rw [List.foldl_cons]
    have hb : bestStep (some b) x =
        if jsGt x.strength (orZero b.strength) then some x else some b := rfl
    rw [hb]
    by_cases hgt : jsGt x.strength (orZero b.strength)
    · rw [if_pos hgt]
      exact ih x
    · rw [if_neg hgt]
      exact ih b

theorem jsGt_sVal (x b : SemanticLink) (hx : x.strength.isSome) :
    jsGt x.strength (orZero b.strength) = decide (sVal x > sVal b) := by
  cases hs : x.strength with
  | none => rw [hs] at hx; cases hx
  | some v =>
    simp only [jsGt, sVal, orZero, hs]

theorem isFirstMax_head_le (y : SemanticLink) (ys : List SemanticLink)
    (c : SemanticLink) (h : IsFirstMax (y :: ys) c) : sVal y ≤ sVal c := by
  obtain ⟨pre, post, hdec, hpre, _⟩ := h
  cases pre with
  | nil =>
    simp only [List.nil_append, List.cons.injEq] at hdec
    rw [hdec.1]
  | cons q pre2 =>
    simp only [List.cons_append, List.cons.injEq] at hdec
    have hm : y ∈ q :: pre2 := by
      rw [hdec.1]
      exact List.mem_cons_self _ _
    exact le_of_lt (hpre y hm)

theorem groupBest_isFirstMax (xs : List SemanticLink) :
    ∀ b : SemanticLink, (∀ x ∈ b :: xs, x.strength.isSome) →
      ∃ c, xs.foldl bestStep (some b) = some c ∧ IsFirstMax (b :: xs) c := by
  induction xs with
  | nil =>
    intro b _
    exact ⟨b, rfl, [], [], rfl, by simp, by simp⟩
  | cons x rest ih =>
    intro b hsome
    have hx : x.strength.isSome :=
      hsome x (List.mem_cons_of_mem _ (List.mem_cons_self _ _))
    rw [List.foldl_cons]
    have hstep : bestStep (some b) x =
        if sVal x > sVal b then some x else some b := by
      have h0 : bestStep (some b) x =
          if jsGt x.strength (orZero b.strength) = true then some x
          else some b := rfl
      rw [h0]
      simp only [jsGt_sVal x b hx, decide_eq_true_eq]
    by_cases hgt : sVal x > sVal b
    · rw [hstep, if_pos hgt]
      obtain ⟨c, hc, hfm⟩ := ih x (by
        intro y hy
        rcases List.mem_cons.mp hy with rfl | hm
        · exact hx
        · exact hsome y (List.mem_cons_of_mem _ (List.mem_cons_of_mem _ hm)))
      refine ⟨c, hc, ?_⟩
      have hxc : sVal x ≤ sVal c := isFirstMax_head_le x rest c hfm
      obtain ⟨pre, post, hdec, hpre, hpost⟩ := hfm
      refine ⟨b :: pre, post, by rw [List.cons_append, hdec], ?_, hpost⟩
      intro y hy
      rcases List.mem_cons.mp hy with rfl | hm
      · exact lt_of_lt_of_le hgt hxc
      · exact hpre y hm
    · rw [hstep, if_neg hgt]
      push_neg at hgt
      obtain ⟨c, hc, hfm⟩ := ih b (by
        intro y hy
        rcases List.mem_cons.mp hy with rfl | hm
        · exact hsome _ (List.mem_cons_self _ _)
        · exact hsome y (List.mem_cons_of_mem _ (List.mem_cons_of_mem _ hm)))
      refine ⟨c, hc, ?_⟩
      obtain ⟨pre, post, hdec, hpre, hpost⟩ := hfm
      cases pre with
      | nil =>
        simp only [List.nil_append, List.cons.injEq] at hdec
        obtain ⟨rfl, rfl⟩ := hdec
        refine ⟨[], x :: rest, rfl, by simp, ?_⟩
        intro y hy
        rcases List.mem_cons.mp hy with rfl | hm
        · exact hgt
        · exact hpost y hm
      | cons q pre2 =>
        simp only [List.cons_append, List.cons.injEq] at hdec
        obtain ⟨rfl, hr⟩ := hdec
        have hbc : sVal b < sVal c := hpre b (List.mem_cons_self _ _)
        refine ⟨b :: x :: pre2, post, ?_, ?_, hpost⟩
        · rw [hr]
          rfl
        · intro y hy
          rcases List.mem_cons.mp hy with rfl | hm
          · exact hbc
          · rcases List.mem_cons.mp hm with rfl | hm2
            · exact lt_of_le_of_lt hgt hbc
            · exact hpre y (List.mem_cons_of_mem _ hm2)

/-- C1: when every input link carries a strength, the deduplicated view has
at most one edge per unordered document pair; whenever some input link
connects the pair, a surviving edge for it exists; and each surviving edge
is the maximum-strength link of its pair group, the first such link in
input order on ties. -/
theorem c1_dedup_strongest_first (links : List SemanticLink)
    (H : ∀ l ∈ links, l.strength.isSome) (p : Nat × Nat) :
    ((dedupLinks links).filter (fun l => decide (pairKey l = p))).length ≤ 1 ∧
    (keyGroup links p ≠ [] → ∃ e ∈ dedupLinks links, pairKey e = p) ∧
    (∀ e ∈ dedupLinks links, pairKey e = p →
      IsFirstMax (keyGroup links p) e) := by
  have hInv : MapInv (links.foldl dedupStep []) :=
    mapInv_foldl_dedupStep links [] ⟨by simp, by simp⟩
  have hval : (dedupLinks links).filter (fun l => decide (pairKey l = p)) =
      (mapGet (links.foldl dedupStep []) p).toList :=
    values_filter p _ hInv
  have hlook : mapGet (links.foldl dedupStep []) p =
      (keyGroup links p).foldl bestStep none :=
    foldl_dedupStep_mapGet p links []
  refine ⟨?_, ?_, ?_⟩
  · rw [hval]
    cases mapGet (links.foldl dedupStep []) p <;> simp
  · intro hne
    cases hg : keyGroup links p with
    | nil => exact absurd hg hne
    | cons g gs =>
      have hsome : ∀ x ∈ g :: gs, x.strength.isSome := by
        intro x hx
        rw [← hg] at hx
        exact H x (List.mem_filter.mp hx).1
      obtain ⟨c, hc, _⟩ := groupBest_isFirstMax gs g hsome
      have hmg : mapGet (links.foldl dedupStep []) p = some c := by
        rw [hlook, hg, List.foldl_cons]
        exact hc
      have hmem : c ∈ (dedupLinks links).filter
          (fun l => decide (pairKey l = p)) := by
        rw [hval, hmg]
        simp
      have h2 := List.mem_filter.mp hmem
      exact ⟨c, h2.1, of_decide_eq_true h2.2⟩
  · intro e he hpe
    have hmem : e ∈ (dedupLinks links).filter
        (fun l => decide (pairKey l = p)) :=
      List.mem_filter.mpr ⟨he, by simpa using hpe⟩
    rw [hval] at hmem
    have hmg : mapGet (links.foldl dedupStep []) p = some e := by
      cases hm : mapGet (links.foldl dedupStep []) p with
      | none => rw [hm] at hmem; cases hmem
      | some c =>
        rw [hm] at hmem
        simp only [Option.toList_some, List.mem_singleton] at hmem
        rw [hmem]
    rw [hlook] at hmg
    cases hg : keyGroup links p with
    | nil =>
      rw [hg] at hmg
      cases hmg
    | cons g gs =>
      have hsome : ∀ x ∈ g :: gs, x.strength.isSome := by
        intro x hx
        rw [← hg] at hx
        exact H x (List.mem_filter.mp hx).1
      obtain ⟨c, hc, hfm⟩ := groupBest_isFirstMax gs g hsome
      rw [hg, List.foldl_cons] at hmg
      have hb : bestStep none g = some g := rfl
      rw [hb, hc] at hmg
      injection hmg with hce
      rw [← hce]
      exact hfm

/-- Witness for C1: the spec scenario — links (1→2, strength 4) and
(2→1, strength 7) collapse to the single strength-7 edge for pair (1,2). -/
theorem c1_witness :
    (∀ l ∈ [(⟨1, 1, 2, "related", some 4⟩ : SemanticLink),
            ⟨2, 2, 1, "related", some 7⟩], l.strength.isSome) ∧
    (keyGroup [(⟨1, 1, 2, "related", some 4⟩ : SemanticLink),
            ⟨2, 2, 1, "related", some 7⟩] (1, 2) ≠ [] →
      ∃ e ∈ dedupLinks [(⟨1, 1, 2, "related", some 4⟩ : SemanticLink),
            ⟨2, 2, 1, "related", some 7⟩], pairKey e = (1, 2)) :=
  ⟨by decide,
   (c1_dedup_strongest_first _ (by decide) (1, 2)).2.1⟩

end KM
